import Mathlib

/-!
# Verification of the Slide-Rule scale generator core

Shallow embedding of the core of `SlideRule.py` (transform catalog,
graduation-density engine, digit heuristics, layout grammar and alignment
inference), together with theorems settling the specification claims.

Python integers are modelled by `ℤ`/`ℕ` (with `Int.fdiv` for Python's
floor division `//`), Python floats by `ℝ` (exact real arithmetic; the
spec's "floating tolerance" only widens what we prove exactly), and
Python values that can be `None` by `Option`.
-/

namespace SlideRule

/-! ## Tick subdivision catalog (`TF_BY_MIN`, `TF_MIN`, `t_s`) -/

/-- A tick-factor triple, as in `TickFactors = tuple[int, int, int]`. -/
abbrev TickFactors := ℤ × ℤ × ℤ

/-- `TF_BY_MIN`, the ordered subdivision catalog, keyed by coarsest
division count.  Stored as an association list in the key order of the
Python dict (which is also descending key order). -/
def TF_BY_MIN : List (ℕ × TickFactors) :=
  [(500, (10, 10, 5)),
   (250, (10, 5, 5)),
   (100, (10, 2, 5)),
   (50, (2, 5, 5)),
   (25, (1, 5, 5)),
   (20, (2, 5, 2)),
   (10, (2, 5, 1)),
   (5, (1, 5, 1)),
   (2, (1, 2, 1)),
   (1, (1, 1, 1))]

/-- `TF_MIN = sorted(TF_BY_MIN.keys(), reverse=True)`: the catalog keys
from finest (largest) to coarsest. -/
def TF_MIN : List ℕ := [500, 250, 100, 50, 25, 20, 10, 5, 2, 1]

/-- Dictionary access `TF_BY_MIN[i]`, total with the coarsest triple as
default (the Python code only ever looks up keys present in the dict). -/
def tf_lookup (i : ℕ) : TickFactors :=
  ((TF_BY_MIN.find? (fun p => p.1 == i)).map Prod.snd).getD (1, 1, 1)

/-- `t_s(s1, f)`: tick iterative subdivision.  Python `//` on ints is
floor division, i.e. `Int.fdiv`. -/
def t_s (s1 : ℤ) (f : TickFactors) : ℤ × ℤ × ℤ × ℤ :=
  let s2 := if f.1 = 1 then s1 else Int.fdiv s1 f.1
  let s3 := if f.2.1 = 1 then s2 else Int.fdiv s2 f.2.1
  let s4 := if f.2.2 = 1 then s3 else Int.fdiv s3 f.2.2
  (s1, s2, s3, s4)

lemma fdiv_le_self_of_nonneg {a b : ℤ} (ha : 0 ≤ a) (hb : 0 < b) :
    Int.fdiv a b ≤ a := by
  rw [Int.fdiv_eq_ediv _ (Int.le_of_lt hb)]
  exact Int.ediv_le_self b ha

lemma fdiv_nonneg_of_nonneg {a b : ℤ} (ha : 0 ≤ a) (hb : 0 < b) :
    0 ≤ Int.fdiv a b := by
  rw [Int.fdiv_eq_ediv _ (Int.le_of_lt hb)]
  exact Int.ediv_nonneg ha (Int.le_of_lt hb)

lemma t_s_step_le {s f : ℤ} (hs : 0 ≤ s) (hf : 0 < f) :
    (if f = 1 then s else Int.fdiv s f) ≤ s ∧
      0 ≤ (if f = 1 then s else Int.fdiv s f) := by
  by_cases h : f = 1
  · simp [h, hs]
  · simp only [h, if_false]
    exact ⟨fdiv_le_self_of_nonneg hs hf, fdiv_nonneg_of_nonneg hs hf⟩

/-- **C3** — For every non-negative outer step `s1` and positive factor
triple `(f1, f2, f3)`, the four steps derived by `t_s` (iterative floor
division, skipped on factor 1) satisfy `step4 ≤ step3 ≤ step2 ≤ step1`. -/
theorem t_s_steps_monotone (s1 : ℤ) (f1 f2 f3 : ℤ)
    (hs : 0 ≤ s1) (h1 : 0 < f1) (h2 : 0 < f2) (h3 : 0 < f3) :
    (t_s s1 (f1, f2, f3)).2.2.2 ≤ (t_s s1 (f1, f2, f3)).2.2.1 ∧
      (t_s s1 (f1, f2, f3)).2.2.1 ≤ (t_s s1 (f1, f2, f3)).2.1 ∧
      (t_s s1 (f1, f2, f3)).2.1 ≤ (t_s s1 (f1, f2, f3)).1 := by
  have e1 := t_s_step_le (s := s1) hs h1
  have e2 := t_s_step_le (s := if f1 = 1 then s1 else Int.fdiv s1 f1) e1.2 h2
  have e3 := t_s_step_le
    (s := if f2 = 1 then (if f1 = 1 then s1 else Int.fdiv s1 f1)
          else Int.fdiv (if f1 = 1 then s1 else Int.fdiv s1 f1) f2) e2.2 h3
  exact ⟨e3.1, e2.1, e1.1⟩

/-- Witness for C3: the catalog triple `(10, 2, 5)` applied to outer step
`100` produces monotonically ordered step sizes. -/
theorem t_s_steps_monotone_witness :
    (0 : ℤ) ≤ 100 ∧ (0 : ℤ) < 10 ∧ (0 : ℤ) < 2 ∧ (0 : ℤ) < 5 ∧
      ((t_s 100 (10, 2, 5)).2.2.2 ≤ (t_s 100 (10, 2, 5)).2.2.1 ∧
        (t_s 100 (10, 2, 5)).2.2.1 ≤ (t_s 100 (10, 2, 5)).2.1 ∧
        (t_s 100 (10, 2, 5)).2.1 ≤ (t_s 100 (10, 2, 5)).1) :=
  ⟨by decide, by decide, by decide, by decide,
    t_s_steps_monotone 100 10 2 5 (by decide) (by decide) (by decide) (by decide)⟩

/-! ## Significant-digit numeral heuristic (`sig_digit_of`) -/

/-- Fuel-based leading-digit extraction (the fuel `n` always suffices,
since dividing by 10 reaches a single digit in at most `n` steps). -/
def leadingDigitAux : ℕ → ℕ → ℕ
  | 0, n => n
  | fuel + 1, n => if n < 10 then n else leadingDigitAux fuel (n / 10)

/-- Leading decimal digit of a natural number (`leadingDigit 0 = 0`). -/
def leadingDigit (n : ℕ) : ℕ := leadingDigitAux n n

/-- `first_digit_of(x) = int(str(x)[0])`.  For the nonnegative values this
is applied to (multiples of ten and powers of ten), the first character of
the decimal string is the leading digit of the integer part — in
particular `0` for values in `[0, 1)`, whose string starts with `"0."`. -/
def first_digit_of (x : ℚ) : ℕ := leadingDigit ⌊x⌋.toNat

/-- Multiplicity of the prime `p` in `m`, fuel-based so that it reduces
by kernel computation. -/
def multOfAux (p : ℕ) : ℕ → ℕ → ℕ
  | 0, _ => 0
  | fuel + 1, m => if 2 ≤ p ∧ p ∣ m ∧ m ≠ 0 then multOfAux p fuel (m / p) + 1 else 0

/-- Multiplicity of `p` in `m` (0 for `m = 0`). -/
def multOf (p m : ℕ) : ℕ := multOfAux p m m

/-- Number of digits after the decimal point in the terminating decimal
representation of `q` (the realizable tick values `i / 10^k` all
terminate): the smallest `k` with `q.den ∣ 10^k`. -/
def decimalLen (q : ℚ) : ℕ := max (multOf 2 q.den) (multOf 5 q.den)

/-- `last_digit_of(x) = int(str(int(x) if int(x) == x else x)[-1])`: the
last character of the decimal representation.  For an integer it is
`|x| % 10`; otherwise it is the last digit of the (terminating) decimal
expansion, i.e. of `|num| · 10^decimalLen / den`. -/
def last_digit_of (x : ℚ) : ℕ :=
  if x.den = 1 then x.num.natAbs % 10
  else x.num.natAbs * 10 ^ decimalLen x / x.den % 10

/-- Fuel-based test for being a power of ten. -/
def isPowTenNatAux : ℕ → ℕ → Bool
  | 0, _ => false
  | fuel + 1, n =>
      if n = 1 then true
      else if n % 10 = 0 ∧ n ≠ 0 then isPowTenNatAux fuel (n / 10) else false

/-- Whether `n` is a (nonnegative) power of ten. -/
def isPowTenNat (n : ℕ) : Bool := isPowTenNatAux n n

/-- `num > 0 and math.log10(num).is_integer()`: `q` is an exact integer
power of ten, `10^z` with `z : ℤ` (for `z < 0` the reduced fraction has
numerator 1 and denominator `10^(-z)`). -/
def is_pow_ten (q : ℚ) : Prop :=
  0 < q ∧ ((q.den = 1 ∧ isPowTenNat q.num.natAbs) ∨ (q.num = 1 ∧ isPowTenNat q.den))

instance (q : ℚ) : Decidable (is_pow_ten q) := by unfold is_pow_ten; infer_instance

/-- `num % 10 == 0` on an exact value: `q` is an integer multiple of 10. -/
def mult_of_ten (q : ℚ) : Prop := q.den = 1 ∧ (10 : ℤ) ∣ q.num

instance (q : ℚ) : Decidable (mult_of_ten q) := by unfold mult_of_ten; infer_instance

/-- `sig_digit_of(num)`: pick a single digit when only one fits, mirroring
the Python branch structure (note the final branch keeps `num` whole). -/
def sig_digit_of (num : ℚ) : ℚ :=
  if ¬ is_pow_ten num then
    if mult_of_ten num then (first_digit_of num : ℚ)
    else if num < 1 then (last_digit_of num : ℚ)
    else num
  else (first_digit_of num : ℚ)

/-- The numeral rule as the claim words it: power of ten or divisible by
ten → leading digit; else below 1 → last significant digit; else →
leading digit. -/
def sig_digit_claimed (num : ℚ) : ℚ :=
  if is_pow_ten num ∨ mult_of_ten num then (first_digit_of num : ℚ)
  else if num < 1 then (last_digit_of num : ℚ)
  else (first_digit_of num : ℚ)

/-- The amended rule: as the claim, except that a value that is neither a
power of ten, nor divisible by 10, nor below 1 is shown unchanged (the
code's final branch leaves `num` whole). -/
def sig_digit_amended (num : ℚ) : ℚ :=
  if is_pow_ten num ∨ mult_of_ten num then (first_digit_of num : ℚ)
  else if num < 1 then (last_digit_of num : ℚ)
  else num

/-- **C5 counterexample** — at the tick value 25 (not a power of ten, not
divisible by 10, not below 1) the code shows the full value 25, while the
claimed rule shows the leading digit 2. -/
theorem sig_digit_claim_fails_at_25 :
    sig_digit_of 25 = 25 ∧ sig_digit_claimed 25 = 2 ∧ (25 : ℚ) ≠ 2 := by
  refine ⟨by decide, by decide, by decide⟩

/-- **C5 (amended)** — for every numeric value, the numeral shown in
single-most-significant-digit mode is: leading digit for an exact power
of ten or a multiple of 10; last significant digit for a value below 1;
and otherwise the value itself, unchanged. -/
theorem sig_digit_of_eq_amended (num : ℚ) : sig_digit_of num = sig_digit_amended num := by
  unfold sig_digit_of sig_digit_amended
  by_cases h1 : is_pow_ten num <;> by_cases h2 : mult_of_ten num <;> simp [h1, h2]

/-! ## Layout grammar parsing (`Layout.parse_side_layout` and friends) -/

/-- `s.strip(cs)` for an explicit character set `cs`. -/
def pyStripChars (cs : List Char) (s : String) : String :=
  ⟨((s.toList.dropWhile (cs.contains ·)).reverse.dropWhile (cs.contains ·)).reverse⟩

/-- `s.strip()` with no argument strips whitespace. -/
def pyStrip (s : String) : String :=
  ⟨((s.toList.dropWhile Char.isWhitespace).reverse.dropWhile Char.isWhitespace).reverse⟩

/-- Split off everything before the first separator character; return the
rest (if a separator was found). -/
def splitFirstOn (seps : List Char) (l : List Char) : List Char × Option (List Char) :=
  match l.span (fun c => !(seps.contains c)) with
  | (pre, []) => (pre, none)
  | (pre, _ :: rest) => (pre, some rest)

/-- `s.split(sep, 2)` / `re.split('[..]', s, 2)` for single-character
separators: at most two splits, hence one to three pieces. -/
def pySplitCharsMax2 (seps : List Char) (s : String) : List String :=
  match splitFirstOn seps s.toList with
  | (a, none) => [⟨a⟩]
  | (a, some r) =>
    match splitFirstOn seps r with
    | (b, none) => [⟨a⟩, ⟨b⟩]
    | (b, some c) => [⟨a⟩, ⟨b⟩, ⟨c⟩]

/-- `re.split(r'[, ]+', s)`: split on maximal runs of separator
characters (runs collapse; leading/trailing runs yield empty pieces). -/
def reSplitRuns (p : Char → Bool) (s : String) : List String :=
  let st := s.toList.foldl
    (fun (st : List String × List Char × Bool) c =>
      let (done, cur, inSep) := st
      if p c then
        if inSep then (done, cur, true)
        else (done ++ [(⟨cur.reverse⟩ : String)], ([] : List Char), true)
      else (done, c :: cur, false))
    ([], [], false)
  st.1 ++ [(⟨st.2.1.reverse⟩ : String)]

/-- The three per-part key lists of one side (None = no scales parsed for
that part), as in `parse_side_layout`'s result dict over `RulePart`. -/
structure SideKeys where
  top : Option (List String)
  slide : Option (List String)
  bottom : Option (List String)
deriving DecidableEq, Repr

/-- `Layout.parse_segment_layout`. -/
def parse_segment_layout (seg : String) : Option (List String) :=
  if seg ≠ "" then
    some (reSplitRuns (fun c => c == ',' || c == ' ') (pyStripChars [' '] seg))
  else none

/-- `c in s` membership test on the character list (kernel-reducible
counterpart of `String.contains`). -/
def strHasChar (s : String) (c : Char) : Bool := s.toList.contains c

/-- `Layout.parts_of_side_layout`: split a side line at `/` (maxsplit 2)
or at brackets, else fall back to `[side_layout, '', '']`.  (A successful
split is a nonempty list, so Python's `if parts:` is just the
`Option` match.) -/
def parts_of_side_layout (side_layout : String) : List String :=
  let sl := pyStripChars [' ', '|'] side_layout
  let parts : Option (List String) :=
    if strHasChar sl '/' then some (pySplitCharsMax2 ['/'] sl)
    else if strHasChar sl '[' && strHasChar sl ']' then
      some (pySplitCharsMax2 ['[', ']'] sl)
    else none
  match parts with
  | some ps => ps.map pyStrip
  | none => [sl, "", ""]

/-- `Layout.parse_side_layout`.  `parts_of_side_layout` always returns
two or three pieces; only the three-piece case assigns scales (the
Python `num_parts == 1` branch is unreachable), so the wildcard covers
the two-piece case, which leaves every part `None`. -/
def parse_side_layout (layout : Option String) : SideKeys :=
  match layout with
  | none => ⟨none, none, none⟩
  | some l =>
    if l ≠ "" then
      match (parts_of_side_layout (pyStripChars [' ', '|'] l)).map parse_segment_layout with
      | [t, s, b] => ⟨t, s, b⟩
      | _ => ⟨none, none, none⟩
    else ⟨none, none, none⟩

/-- **C7** — the code routes a delimiter-free line's keys to the
upper-stator segment, not the slide: parsing `"A B"` puts `["A", "B"]`
into `STATOR_TOP` and leaves `SLIDE` (and `STATOR_BOTTOM`) with no
scales, contradicting the spec's "slide-only" treatment (whose intended
`num_parts == 1` branch in the code is unreachable). -/
theorem parse_side_layout_no_delimiter_goes_to_top :
    parse_side_layout (some "A B") = ⟨some ["A", "B"], none, none⟩ := by decide

/-- Keys of one side in `RulePart` order (`or ()` for missing parts), as
iterated by `Layout.sc_keys_in_order`. -/
def SideKeys.keys (sk : SideKeys) : List String :=
  sk.top.getD [] ++ sk.slide.getD [] ++ sk.bottom.getD []

/-- All keys of a layout, front side then rear side. -/
def layout_keys (front rear : SideKeys) : List String := front.keys ++ rear.keys

/-- `Layout.check_scales`: raise on the first key that resolves to
neither a known Scale nor a Ruler; `known` lists the resolvable names. -/
def check_scales (keys : List String) (known : List String) : Except String Unit :=
  match keys.find? (fun k => !(known.contains k)) with
  | some k => Except.error ("Unrecognized front scale name: " ++ k)
  | none => Except.ok ()

/-- Split a character list at every occurrence of `c`. -/
def splitOnChar (c : Char) (l : List Char) : List (List Char) :=
  l.foldr
    (fun ch acc =>
      if ch = c then [] :: acc
      else match acc with
        | h :: t => (ch :: h) :: t
        | [] => [[ch]])
    [[]]

/-- `str.splitlines()` for newline-separated text: split at `'\n'`,
ignoring one trailing newline. -/
def pySplitlines (s : String) : List String :=
  let l := s.toList
  let l := if l.getLast? = some '\n' then l.dropLast else l
  (splitOnChar '\n' l).map (fun cs => (⟨cs⟩ : String))

/-- The `rear_str` defaulting step of `Layout.__init__`: when no rear
line is given and the front string holds a newline, split it into the
two lines (any other line count makes the tuple unpacking raise,
modelled as `none`). -/
def layout_lines (front_str : String) (rear_str : Option String) :
    Option (String × Option String) :=
  if (rear_str = none ∨ rear_str = some "") ∧ strHasChar front_str '\n' then
    match pySplitlines front_str with
    | [a, b] => some (a, some b)
    | _ => none
  else some (front_str, rear_str)

/-- `Layout.__init__` up to scale validation: parse both sides, then
`check_scales`; an unresolved key raises (Except.error) during
construction, before any rendering can consume the layout. -/
def Layout_init (front_str : String) (rear_str : Option String) (known : List String) :
    Except String (SideKeys × SideKeys) :=
  match layout_lines front_str rear_str with
  | none => Except.error "ValueError"
  | some (f, r) =>
    let front := parse_side_layout (some f)
    let rear := parse_side_layout r
    match check_scales (layout_keys front rear) known with
    | Except.error e => Except.error e
    | Except.ok _ => Except.ok (front, rear)

/-- **C6** — with every token resolvable, `Layout` construction succeeds;
with an unresolvable token, construction fails during `__init__` (before
any rendering) with an error message naming the first offending token. -/
theorem layout_construction_validates (front_str : String) (rear_str : Option String)
    (known : List String) (f : String) (r : Option String)
    (hl : layout_lines front_str rear_str = some (f, r)) :
    ((∀ t ∈ layout_keys (parse_side_layout (some f)) (parse_side_layout r),
        known.contains t = true) →
      (Layout_init front_str rear_str known).isOk = true) ∧
    (∀ t, (layout_keys (parse_side_layout (some f)) (parse_side_layout r)).find?
          (fun k => !(known.contains k)) = some t →
      Layout_init front_str rear_str known =
          Except.error ("Unrecognized front scale name: " ++ t) ∧
        t ∈ layout_keys (parse_side_layout (some f)) (parse_side_layout r) ∧
        known.contains t = false) := by
  constructor
  · intro hall
    have hfind : (layout_keys (parse_side_layout (some f)) (parse_side_layout r)).find?
        (fun k => !(known.contains k)) = none := by
      rw [List.find?_eq_none]
      intro x hx
      rw [hall x hx]
      decide
    simp only [Layout_init, hl, check_scales, hfind, Except.isOk, Except.toBool]
  · intro t ht
    refine ⟨by simp only [Layout_init, hl, check_scales, ht], List.mem_of_find?_eq_some ht, ?_⟩
    have h := List.find?_some ht
    simp only [Bool.not_eq_true'] at h
    exact h

/-- Witness for C6: the two-line layout `"A/B C/D"` over the known scale
names A, B, C, D constructs successfully, and adding the unknown token
`"Q"` fails with an error naming it. -/
theorem layout_construction_validates_witness :
    (Layout_init "A/B C/D" (some "") ["A", "B", "C", "D"]).isOk = true ∧
      Layout_init "A/Q C/D" (some "") ["A", "B", "C", "D"] =
        Except.error "Unrecognized front scale name: Q" := by
  constructor
  · exact (layout_construction_validates "A/B C/D" (some "") ["A", "B", "C", "D"]
      "A/B C/D" (some "") (by decide)).1 (by decide)
  · exact ((layout_construction_validates "A/Q C/D" (some "") ["A", "B", "C", "D"]
      "A/Q C/D" (some "") (by decide)).2 "Q" (by decide)).1

/-! ## Alignment inference (`Layout.infer_aligns`, `Layout.scale_al`) -/

/-- The three rule parts, in the iteration order of the `RulePart` enum. -/
inductive RulePart
  | stator_top
  | slide
  | stator_bottom
deriving DecidableEq, Repr

/-- Scale alignment: ticks and labels against the upper or lower edge. -/
inductive Align
  | upper
  | lower
deriving DecidableEq, Repr

/-- The data `infer_aligns` reads from a resolved scale object: its key,
whether it is a `Ruler`, and its declared `opp_key` partner. -/
structure ScDesc where
  key : String
  isRuler : Bool
  opp_key : Option String
deriving DecidableEq, Repr

/-- The per-side alignment dict; keys are inserted at most once, so an
association list with fresh bindings consed on models it. -/
abbrev AlignMap := List (String × Align)

def lookupAlign (m : AlignMap) (k : String) : Option Align :=
  (m.find? (fun p => p.1 == k)).map Prod.snd

/-- State threaded through one side's pass: the overrides dict being
filled and the set of keys placed so far (`side_seen`). -/
structure SideState where
  overrides : AlignMap
  seen : List String
deriving DecidableEq, Repr

/-- The alignment `infer_aligns` assigns to one scale (`none` = no entry
made): Ruler → edge of its part; first of slide → upper; last of a
non-lower-stator part → lower; else a truthy `opp_key` decides by
whether the partner was already seen; else no entry. -/
def align_decision (part : RulePart) (last_i i : ℕ) (sc : ScDesc)
    (seen : List String) : Option Align :=
  if sc.isRuler then
    some (if part = RulePart.stator_top then Align.upper else Align.lower)
  else if i = 0 ∧ part = RulePart.slide then some Align.upper
  else if i = last_i ∧ part ≠ RulePart.stator_bottom then some Align.lower
  else match sc.opp_key with
    | some k =>
        if k ≠ "" then
          some (if seen.contains k then Align.upper else Align.lower)
        else none
    | none => none

/-- One loop iteration of `infer_aligns`: record the decision unless the
key already has an entry, then add the key to `side_seen`. -/
def infer_step (part : RulePart) (last_i i : ℕ) (sc : ScDesc) (st : SideState) :
    SideState :=
  let ov :=
    if (lookupAlign st.overrides sc.key).isSome then st.overrides
    else match align_decision part last_i i sc st.seen with
      | some al => (sc.key, al) :: st.overrides
      | none => st.overrides
  ⟨ov, sc.key :: st.seen⟩

/-- The `enumerate` loop over one part's scales. -/
def infer_part_aux (part : RulePart) (last_i : ℕ) :
    ℕ → List ScDesc → SideState → SideState
  | _, [], st => st
  | i, sc :: rest, st =>
      infer_part_aux part last_i (i + 1) rest (infer_step part last_i i sc st)

def infer_part (part : RulePart) (scs : List ScDesc) (st : SideState) : SideState :=
  infer_part_aux part (scs.length - 1) 0 scs st

/-- `infer_aligns` for one side: the three parts in `RulePart` order,
starting from the explicitly given overrides. -/
def infer_side (top slide bottom : List ScDesc) (ov0 : AlignMap) : SideState :=
  infer_part RulePart.stator_bottom bottom
    (infer_part RulePart.slide slide
      (infer_part RulePart.stator_top top ⟨ov0, []⟩))

/-- `Layout.scale_al`: look the key up, defaulting to upper on the lower
stator and lower elsewhere. -/
def scale_al (ov : AlignMap) (key : String) (part : RulePart) : Align :=
  (lookupAlign ov key).getD
    (if part = RulePart.stator_bottom then Align.upper else Align.lower)

lemma lookupAlign_cons_ne {m : AlignMap} {a : String} {v : Align} {k : String}
    (h : a ≠ k) : lookupAlign ((a, v) :: m) k = lookupAlign m k := by
  unfold lookupAlign
  rw [List.find?_cons_of_neg]
  simpa using h

lemma lookupAlign_cons_self (m : AlignMap) (a : String) (v : Align) :
    lookupAlign ((a, v) :: m) a = some v := by
  unfold lookupAlign
  rw [List.find?_cons_of_pos] <;> simp

/-- A step never touches bindings of other keys. -/
lemma infer_step_lookup_ne (part : RulePart) (last_i i : ℕ) (sc : ScDesc)
    (st : SideState) {k : String} (h : sc.key ≠ k) :
    lookupAlign (infer_step part last_i i sc st).overrides k =
      lookupAlign st.overrides k := by
  unfold infer_step
  by_cases h1 : (lookupAlign st.overrides sc.key).isSome
  · simp [h1]
  · simp only [h1, if_false]
    cases hd : align_decision part last_i i sc st.seen with
    | none => simp
    | some al => simp [lookupAlign_cons_ne h]

/-- Frame lemma: keys not occurring in the processed list keep their
binding (or absence of one). -/
lemma infer_part_aux_lookup_notin (part : RulePart) (last_i : ℕ)
    (scs : List ScDesc) :
    ∀ (i : ℕ) (st : SideState) {k : String}, k ∉ scs.map ScDesc.key →
      lookupAlign (infer_part_aux part last_i i scs st).overrides k =
        lookupAlign st.overrides k := by
  induction scs with
  | nil => intro i st k _; rfl
  | cons sc rest ih =>
      intro i st k hk
      simp only [List.map_cons, List.mem_cons, not_or] at hk
      rw [infer_part_aux, ih _ _ hk.2, infer_step_lookup_ne]
      exact fun hkey => hk.1 hkey.symm

/-- The seen set accumulates exactly the processed keys (reversed). -/
lemma infer_part_aux_seen (part : RulePart) (last_i : ℕ) (scs : List ScDesc) :
    ∀ (i : ℕ) (st : SideState),
      (infer_part_aux part last_i i scs st).seen =
        (scs.map ScDesc.key).reverse ++ st.seen := by
  induction scs with
  | nil => intro i st; simp [infer_part_aux]
  | cons sc rest ih =>
      intro i st
      rw [infer_part_aux, ih]
      simp [infer_step]

/-- The binding recorded for a scale at position `pre.length` of its part
is exactly `align_decision` evaluated there, provided the key has no
earlier binding and occurs once. -/
lemma infer_part_aux_lookup_at (part : RulePart) (last_i : ℕ) (sc : ScDesc) :
    ∀ (pre post : List ScDesc) (st : SideState) (i0 : ℕ),
      lookupAlign st.overrides sc.key = none →
      sc.key ∉ pre.map ScDesc.key → sc.key ∉ post.map ScDesc.key →
      lookupAlign
          (infer_part_aux part last_i i0 (pre ++ sc :: post) st).overrides sc.key =
        align_decision part last_i (i0 + pre.length) sc
          ((pre.map ScDesc.key).reverse ++ st.seen) := by
  intro pre
  induction pre with
  | nil =>
      intro post st i0 hst _ hpost
      rw [List.nil_append, infer_part_aux,
        infer_part_aux_lookup_notin part last_i post _ _ hpost]
      unfold infer_step
      simp only [hst, Option.isSome_none, Bool.false_eq_true, if_false]
      cases hd : align_decision part last_i i0 sc st.seen with
      | none => simpa [hst] using hd.symm
      | some al => simpa [lookupAlign_cons_self] using hd.symm
  | cons a pre' ih =>
      intro post st i0 hst hpre hpost
      simp only [List.map_cons, List.mem_cons, not_or] at hpre
      rw [List.cons_append, infer_part_aux]
      have hst' : lookupAlign (infer_step part last_i i0 a st).overrides sc.key = none := by
        rw [infer_step_lookup_ne]
        · exact hst
        · exact fun hkey => hpre.1 hkey.symm
      rw [ih post _ (i0 + 1) hst' hpre.2 hpost]
      have hseen : (infer_step part last_i i0 a st).seen = a.key :: st.seen := rfl
      rw [hseen]
      have hi : i0 + 1 + pre'.length = i0 + (a :: pre').length := by
        simp [List.length_cons]; omega
      rw [hi]
      simp [List.reverse_cons, List.append_assoc]

/-- The part list of a side assigned to a given `RulePart`. -/
def part_scales (top slide bottom : List ScDesc) : RulePart → List ScDesc
  | RulePart.stator_top => top
  | RulePart.slide => slide
  | RulePart.stator_bottom => bottom

/-- Keys of the scales placed on the side strictly before the given part. -/
def keys_before_part (top slide : List ScDesc) : RulePart → List String
  | RulePart.stator_top => []
  | RulePart.slide => top.map ScDesc.key
  | RulePart.stator_bottom => top.map ScDesc.key ++ slide.map ScDesc.key

/-- Keys of the scales placed on the side strictly after the given part. -/
def keys_after_part (slide bottom : List ScDesc) : RulePart → List String
  | RulePart.stator_top => slide.map ScDesc.key ++ bottom.map ScDesc.key
  | RulePart.slide => bottom.map ScDesc.key
  | RulePart.stator_bottom => []

lemma contains_reverse (l : List String) (k : String) :
    l.reverse.contains k = l.contains k := by
  simp [List.contains, List.elem_eq_mem]

/-- After the whole side pass, the binding of a once-occurring,
not-pre-overridden key is `align_decision` at its position, with the
seen set being every key placed before it on the side. -/
lemma infer_side_lookup (top slide bottom : List ScDesc) (ov0 : AlignMap)
    (p : RulePart) (pre post : List ScDesc) (sc : ScDesc)
    (hparts : part_scales top slide bottom p = pre ++ sc :: post)
    (hov0 : lookupAlign ov0 sc.key = none)
    (huniq : sc.key ∉ keys_before_part top slide p ∧ sc.key ∉ pre.map ScDesc.key ∧
      sc.key ∉ post.map ScDesc.key ∧ sc.key ∉ keys_after_part slide bottom p) :
    lookupAlign (infer_side top slide bottom ov0).overrides sc.key =
      align_decision p ((part_scales top slide bottom p).length - 1) pre.length sc
        ((keys_before_part top slide p ++ pre.map ScDesc.key).reverse) := by
  obtain ⟨hb, hpre, hpost, ha⟩ := huniq
  cases p with
  | stator_top =>
      simp only [part_scales] at hparts ⊢
      subst hparts
      simp only [keys_after_part, List.mem_append, not_or] at ha
      unfold infer_side infer_part
      rw [infer_part_aux_lookup_notin _ _ _ _ _ ha.2,
        infer_part_aux_lookup_notin _ _ _ _ _ ha.1,
        infer_part_aux_lookup_at _ _ _ _ _ _ _ hov0 hpre hpost]
      simp [keys_before_part]
  | slide =>
      simp only [part_scales] at hparts ⊢
      subst hparts
      simp only [keys_before_part] at hb ⊢
      simp only [keys_after_part] at ha
      unfold infer_side infer_part
      rw [infer_part_aux_lookup_notin _ _ _ _ _ ha]
      have hst : lookupAlign
          (infer_part_aux RulePart.stator_top (top.length - 1) 0 top ⟨ov0, []⟩).overrides
            sc.key = none := by
        rw [infer_part_aux_lookup_notin _ _ _ _ _ hb]
        exact hov0
      rw [infer_part_aux_lookup_at _ _ _ _ _ _ _ hst hpre hpost]
      rw [infer_part_aux_seen]
      simp [List.reverse_append]
  | stator_bottom =>
      simp only [part_scales] at hparts ⊢
      subst hparts
      simp only [keys_before_part, List.mem_append, not_or] at hb ⊢
      unfold infer_side infer_part
      have hst1 : lookupAlign
          (infer_part_aux RulePart.stator_top (top.length - 1) 0 top ⟨ov0, []⟩).overrides
            sc.key = none := by
        rw [infer_part_aux_lookup_notin _ _ _ _ _ hb.1]
        exact hov0
      have hst2 : lookupAlign
          (infer_part_aux RulePart.slide (slide.length - 1) 0 slide
            (infer_part_aux RulePart.stator_top (top.length - 1) 0 top ⟨ov0, []⟩)).overrides
            sc.key = none := by
        rw [infer_part_aux_lookup_notin _ _ _ _ _ hb.2]
        exact hst1
      rw [infer_part_aux_lookup_at _ _ _ _ _ _ _ hst2 hpre hpost]
      rw [infer_part_aux_seen, infer_part_aux_seen]
      simp [List.reverse_append, List.append_assoc]

/-- **C4 counterexample** — in the side layout `A / B C / D L` the scale
`L` (last in the lower stator, no opposite partner, not overridden) gets
no entry from `infer_aligns`, and `scale_al` then defaults to UPPER on
the lower stator — where the claim's "lower in every remaining case,
lower-stator included" demands LOWER. -/
theorem infer_aligns_claim_fails_lower_stator :
    scale_al
        (infer_side [⟨"A", false, some "B"⟩]
          [⟨"B", false, some "A"⟩, ⟨"C", false, some "D"⟩]
          [⟨"D", false, some "C"⟩, ⟨"L", false, none⟩] []).overrides
        "L" RulePart.stator_bottom = Align.upper ∧
      Align.upper ≠ Align.lower := by
  exact ⟨by decide, by decide⟩

/-- **C4 (amended)** — for every side and every non-Ruler scale not
explicitly overridden: first scale of the slide segment → upper; last
scale of a non-lower-stator part → lower; otherwise a declared (nonempty)
opposite partner key gives upper exactly when the partner was placed
earlier on the side, else lower; and in every remaining case the scale
gets no entry, so lookup falls back to lower — except in the lower
stator, whose fallback is upper. -/
theorem infer_aligns_characterization (top slide bottom : List ScDesc)
    (ov0 : AlignMap) (p : RulePart) (pre post : List ScDesc) (sc : ScDesc)
    (hparts : part_scales top slide bottom p = pre ++ sc :: post)
    (hov0 : lookupAlign ov0 sc.key = none)
    (hruler : sc.isRuler = false)
    (huniq : sc.key ∉ keys_before_part top slide p ∧ sc.key ∉ pre.map ScDesc.key ∧
      sc.key ∉ post.map ScDesc.key ∧ sc.key ∉ keys_after_part slide bottom p) :
    scale_al (infer_side top slide bottom ov0).overrides sc.key p =
      (if p = RulePart.slide ∧ pre = [] then Align.upper
       else if post = [] ∧ p ≠ RulePart.stator_bottom then Align.lower
       else match sc.opp_key with
         | some k =>
             if k ≠ "" then
               (if (keys_before_part top slide p ++ pre.map ScDesc.key).contains k
                then Align.upper else Align.lower)
             else if p = RulePart.stator_bottom then Align.upper else Align.lower
         | none =>
             if p = RulePart.stator_bottom then Align.upper else Align.lower) := by
  unfold scale_al
  rw [infer_side_lookup top slide bottom ov0 p pre post sc hparts hov0 huniq]
  have hlen : (part_scales top slide bottom p).length = pre.length + post.length + 1 := by
    rw [hparts]; simp [List.length_append]; omega
  have hfirst : (pre.length = 0) = (pre = []) := by
    simp [List.length_eq_zero]
  have hlast : (pre.length = (part_scales top slide bottom p).length - 1) = (post = []) := by
    rw [hlen]
    simp only [Nat.add_sub_cancel, eq_iff_iff]
    constructor
    · intro h
      have : post.length = 0 := by omega
      exact List.length_eq_zero.mp this
    · intro h; subst h; simp
  unfold align_decision
  rw [hruler]
  simp only [Bool.false_eq_true, if_false]
  by_cases h1 : pre.length = 0 ∧ p = RulePart.slide
  · have h1' : p = RulePart.slide ∧ pre = [] := ⟨h1.2, by rw [← hfirst]; exact h1.1⟩
    simp [h1, h1']
  · have h1' : ¬ (p = RulePart.slide ∧ pre = []) := by
      rw [← hfirst] at *
      exact fun hc => h1 ⟨hc.2, hc.1⟩
    simp only [h1, h1', if_false]
    by_cases h2 : pre.length = (part_scales top slide bottom p).length - 1 ∧
        p ≠ RulePart.stator_bottom
    · have h2' : post = [] ∧ p ≠ RulePart.stator_bottom := ⟨hlast ▸ h2.1, h2.2⟩
      simp [h2, h2']
    · have h2' : ¬ (post = [] ∧ p ≠ RulePart.stator_bottom) := by
        rw [← hlast] at *
        exact h2
      simp only [h2, h2', if_false]
      cases sc.opp_key with
      | none => simp
      | some k =>
          by_cases hk : k = ""
          · simp [hk]
          · simp only [hk, ne_eq, not_false_iff, if_true, Option.getD_some]
            rw [contains_reverse]

/-- Witness for C4: in slide segment `[A, CI, B]` where `CI` declares
opposite partner `A`, the middle scale `CI` aligns upper because `A` was
already placed on this side. -/
theorem infer_aligns_characterization_witness :
    scale_al (infer_side []
        [⟨"A", false, none⟩, ⟨"CI", false, some "A"⟩, ⟨"B", false, none⟩] [] []).overrides
      "CI" RulePart.slide = Align.upper := by
  have h := infer_aligns_characterization []
      [⟨"A", false, none⟩, ⟨"CI", false, some "A"⟩, ⟨"B", false, none⟩] [] []
      RulePart.slide [⟨"A", false, none⟩] [⟨"B", false, none⟩] ⟨"CI", false, some "A"⟩
      rfl rfl rfl (by decide)
  rw [h]
  decide

/-! ## Transforms (`ScaleFN` and the `ScaleFNs` catalog)

Python floats are modelled by exact reals; `math`'s transcendental
functions by their `Real` counterparts. -/

noncomputable def gen_base (x : ℝ) : ℝ := Real.logb 10 x

noncomputable def pos_base (p : ℝ) : ℝ := (10 : ℝ) ^ p

/-- `ε = 1e-20`, the epsilon domain bound near zero. -/
noncomputable def eps : ℝ := 1e-20

/-- `math.radians`. -/
noncomputable def radians (x : ℝ) : ℝ := x * Real.pi / 180

/-- `ScaleFN`: a generating function and its inverse, with the declared
domain `[min_x, max_x]`.  `none` models the `±math.inf` defaults (Python
`clamp` against an infinite bound is the identity, as is omitting the
bound here). -/
structure ScaleFN where
  fn : ℝ → ℝ
  inverse : ℝ → ℝ
  is_increasing : Bool
  min_x : Option ℝ
  max_x : Option ℝ

/-- `clamp(x, self.min_x, self.max_x) = max(min(x, max_x), min_x)`. -/
noncomputable def ScaleFN.clamp_input (s : ScaleFN) (x : ℝ) : ℝ :=
  let hi := match s.max_x with
    | none => x
    | some m => min x m
  match s.min_x with
  | none => hi
  | some m => max hi m

noncomputable def ScaleFN.position_of (s : ScaleFN) (value : ℝ) : ℝ := s.fn value

noncomputable def ScaleFN.value_at (s : ScaleFN) (position : ℝ) : ℝ := s.inverse position

/-- `ScaleFNs.Unit`. -/
noncomputable def ScaleFNs.Unit : ScaleFN :=
  { fn := fun x => x, inverse := fun x => x,
    is_increasing := true, min_x := none, max_x := none }

/-- `ScaleFNs.Base`: the decade-log transform, `min_x = ε`. -/
noncomputable def ScaleFNs.Base : ScaleFN :=
  { fn := gen_base, inverse := pos_base,
    is_increasing := true, min_x := some eps, max_x := none }

/-- `ScaleFNs.Tan`: forward `log10(10·tan(radians(x)))` (degrees in,
fraction out); the code's declared inverse is `atan(pos_base(p))`. -/
noncomputable def ScaleFNs.Tan : ScaleFN :=
  { fn := fun x => gen_base (10 * Real.tan (radians x)),
    inverse := fun p => Real.arctan (pos_base p),
    is_increasing := true, min_x := none, max_x := none }

/-- **C2** — the round-trip invariant fails on the catalog: for the `Tan`
transform at the in-domain value 45 (degrees), `value_at (position_of 45)`
is `arctan` of a real, hence below `π/2 < 2`, so it misses 45 by more
than 40 — far outside any floating tolerance.  (The declared inverse
omits both the `÷10` and the radians→degrees conversion, contradicting
`ScaleFN`'s own docstring "a generating function and its inverse".) -/
theorem tan_roundtrip_diverges :
    |ScaleFNs.Tan.value_at (ScaleFNs.Tan.position_of 45) - 45| > 1 := by
  have h1 : ScaleFNs.Tan.value_at (ScaleFNs.Tan.position_of 45) =
      Real.arctan (pos_base (gen_base (10 * Real.tan (radians 45)))) := rfl
  have harc : Real.arctan (pos_base (gen_base (10 * Real.tan (radians 45)))) <
      Real.pi / 2 := Real.arctan_lt_pi_div_two _
  have harc2 : -(Real.pi / 2) < Real.arctan (pos_base (gen_base (10 * Real.tan (radians 45)))) :=
    Real.neg_pi_div_two_lt_arctan _
  have hpi : Real.pi < 3.15 := Real.pi_lt_d2
  rw [h1, abs_sub_comm, abs_of_pos (by linarith)]
  linarith

/-! ## Scale (value↔pixel queries used by the graduation engine) -/

/-- The fields of `Scale` the graduation engine reads (`__post_init__`
copies `scaler.fn`/`scaler.inverse` into `gen_fn`/`pos_fn`). -/
structure SRScale where
  scaler : ScaleFN
  shift : ℝ

/-- `Scale.frac_pos_of(x, shift_adj) = shift + shift_adj + gen_fn(x)`. -/
noncomputable def SRScale.frac_pos_of (sc : SRScale) (x shift_adj : ℝ) : ℝ :=
  sc.shift + shift_adj + sc.scaler.fn x

/-- `Scale.value_at_frac_pos(frac_pos, shift_adj)`. -/
noncomputable def SRScale.value_at_frac_pos (sc : SRScale) (frac_pos shift_adj : ℝ) : ℝ :=
  sc.scaler.inverse (frac_pos - sc.shift - shift_adj)

noncomputable def SRScale.value_at_start (sc : SRScale) : ℝ := sc.value_at_frac_pos 0 0

noncomputable def SRScale.value_at_end (sc : SRScale) : ℝ := sc.value_at_frac_pos 1 0

/-- `Scale.offset_between`: absolute fractional span between two clamped
values, scaled by `scale_width`. -/
noncomputable def SRScale.offset_between (sc : SRScale) (x_start x_end scale_width : ℝ) : ℝ :=
  |sc.frac_pos_of (sc.scaler.clamp_input x_end) 0 -
      sc.frac_pos_of (sc.scaler.clamp_input x_start) 0| * scale_width

/-- `Scale.min_offset_for_delta`: the smaller of the two offsets spanned
by `x_delta` at either end of `[x_start, x_end]`. -/
noncomputable def SRScale.min_offset_for_delta (sc : SRScale)
    (x_start x_end x_delta scale_width : ℝ) : ℝ :=
  min (sc.offset_between x_start (x_start + x_delta) scale_width)
    (sc.offset_between (x_end - x_delta) x_end scale_width)

/-- The pixel-linear `Unit` scale (shift 0). -/
noncomputable def UnitScale : SRScale := { scaler := ScaleFNs.Unit, shift := 0 }

/-- The decade-log scale (shift 0), e.g. `Scales.D`. -/
noncomputable def BaseScale : SRScale := { scaler := ScaleFNs.Base, shift := 0 }

/-! ## `pat_auto`: endpoint defaulting (C10) -/

/-- The `if not x_start: x_start = sc.value_at_start()` guard of
`Renderer.pat_auto`: Python's truthiness makes both `None` and `0`
falsy, so both select the scale's own start value. -/
noncomputable def pat_auto_x_start (sc : SRScale) (x_start : Option ℝ) : ℝ :=
  match x_start with
  | none => sc.value_at_start
  | some v => if v = 0 then sc.value_at_start else v

/-- The matching guard for `x_end`. -/
noncomputable def pat_auto_x_end (sc : SRScale) (x_end : Option ℝ) : ℝ :=
  match x_end with
  | none => sc.value_at_end
  | some v => if v = 0 then sc.value_at_end else v

/-- **C10** — passing an explicit endpoint `0` to `pat_auto` behaves
identically to omitting it: the truthiness guard replaces `0` by the
scale's own start (resp. end) value, and only nonzero endpoints are
honored, so no caller can request a graduation segment boundary of
exactly 0. -/
theorem pat_auto_zero_endpoint_ignored (sc : SRScale) :
    pat_auto_x_start sc (some 0) = pat_auto_x_start sc none ∧
      pat_auto_x_start sc none = sc.value_at_start ∧
      (∀ v : ℝ, v ≠ 0 → pat_auto_x_start sc (some v) = v) ∧
      pat_auto_x_end sc (some 0) = pat_auto_x_end sc none ∧
      pat_auto_x_end sc none = sc.value_at_end ∧
      (∀ v : ℝ, v ≠ 0 → pat_auto_x_end sc (some v) = v) := by
  refine ⟨by simp [pat_auto_x_start], rfl,
    fun v hv => by simp [pat_auto_x_start, hv],
    by simp [pat_auto_x_end], rfl,
    fun v hv => by simp [pat_auto_x_end, hv]⟩

/-- Witness for C10 on the Unit scale: a requested start of 0 yields the
scale's own start value, and the nonzero request 5 is honored. -/
theorem pat_auto_zero_endpoint_ignored_witness :
    pat_auto_x_start UnitScale (some 0) = UnitScale.value_at_start ∧
      pat_auto_x_start UnitScale (some 5) = 5 := by
  have h := pat_auto_zero_endpoint_ignored UnitScale
  exact ⟨h.1.trans h.2.1, h.2.2.1 5 (by norm_num)⟩

/-! ## `pat_auto`: automatic density selection -/

open scoped Classical in
/-- Python `int()` truncation toward zero on a real. -/
noncomputable def pyInt (x : ℝ) : ℤ := if 0 ≤ x then ⌊x⌋ else -⌊-x⌋

/-- `log_diff = abs(log10(abs((x_end - x_start) / max(x_start, x_end))))`
(values after the ordering swap). -/
noncomputable def log_diff (xs xe : ℝ) : ℝ := |Real.logb 10 (abs ((xe - xs) / max xs xe))|

/-- `num_digits = ceil(log_diff) + 3`. -/
noncomputable def num_digits (xs xe : ℝ) : ℤ := ⌈log_diff xs xe⌉ + 3

/-- `sf = 10 ** num_digits`. -/
noncomputable def pat_sf (xs xe : ℝ) : ℝ := (10 : ℝ) ^ num_digits xs xe

/-- `frac_w = sc.offset_between(x_start, x_end, 1)`. -/
noncomputable def frac_w (sc : SRScale) (xs xe : ℝ) : ℝ := sc.offset_between xs xe 1

/-- `step_num = 10 ** max(int(log10(x_end - x_start) - 0.5 * frac_w) + num_digits, 0)`. -/
noncomputable def step_num (sc : SRScale) (xs xe : ℝ) : ℕ :=
  10 ^ (max (pyInt (Real.logb 10 (xe - xs) - 0.5 * frac_w sc xs xe) + num_digits xs xe)
      0).toNat

open scoped Classical in
/-- `next((i for i in keys if P i), default 1)`: first element satisfying
`P`, else the coarsest key 1. -/
noncomputable def sel_first (P : ℕ → Prop) : List ℕ → ℕ
  | [] => 1
  | i :: rest => if P i then i else sel_first P rest

/-- The minimum realized tick gap of catalog key `i`:
`sc.min_offset_for_delta(x_start, x_end, step_num / i / sf, scale_w)`. -/
noncomputable def tick_gap (sc : SRScale) (xs xe scale_w : ℝ) (i : ℕ) : ℝ :=
  sc.min_offset_for_delta xs xe
    ((step_num sc xs xe : ℝ) / (i : ℝ) / pat_sf xs xe) scale_w

/-- The key of the subdivision `pat_auto` selects:
`next((TF_BY_MIN[i] for i in TF_MIN if i <= step_num and gap(i) >= min_tick_offset),
TF_BY_MIN[1])`. -/
noncomputable def pat_auto_key (sc : SRScale) (xs xe scale_w min_tick_offset : ℝ) : ℕ :=
  sel_first
    (fun i => i ≤ step_num sc xs xe ∧ tick_gap sc xs xe scale_w i ≥ min_tick_offset)
    TF_MIN

/-- The selection as the claim describes it: the first (finest) catalog
entry whose minimum realized gap clears the minimum legible gap — with
no `i <= step_num` filter. -/
noncomputable def claimed_key (sc : SRScale) (xs xe scale_w min_tick_offset : ℝ) : ℕ :=
  sel_first (fun i => tick_gap sc xs xe scale_w i ≥ min_tick_offset) TF_MIN

/-- `sub_div4`, the tick-factor triple of the selected key. -/
noncomputable def pat_auto_sub_div4 (sc : SRScale) (xs xe scale_w min_tick_offset : ℝ) :
    TickFactors :=
  tf_lookup (pat_auto_key sc xs xe scale_w min_tick_offset)

/-- `(step1, step2, step3, step4)` with `step1 = step_num` and the rest
from `t_s(step_num, sub_div4)`. -/
noncomputable def pat_auto_steps (sc : SRScale) (xs xe scale_w min_tick_offset : ℝ) :
    ℤ × ℤ × ℤ × ℤ :=
  t_s (step_num sc xs xe : ℤ) (pat_auto_sub_div4 sc xs xe scale_w min_tick_offset)

lemma sel_first_default (P : ℕ → Prop) :
    ∀ l : List ℕ, (∀ i ∈ l, ¬ P i) → sel_first P l = 1 := by
  intro l
  induction l with
  | nil => intro _; rfl
  | cons i rest ih =>
      intro h
      simp only [sel_first]
      rw [if_neg (h i (by simp))]
      exact ih fun j hj => h j (by simp [hj])

lemma sel_first_of_first (P : ℕ → Prop) (a : ℕ) (post : List ℕ) :
    ∀ pre : List ℕ, P a → (∀ b ∈ pre, ¬ P b) → sel_first P (pre ++ a :: post) = a := by
  intro pre
  induction pre with
  | nil =>
      intro hP _
      rw [List.nil_append]
      simp only [sel_first]
      rw [if_pos hP]
  | cons b pre' ih =>
      intro hP h
      rw [List.cons_append]
      simp only [sel_first]
      rw [if_neg (h b (by simp))]
      exact ih hP fun j hj => h j (by simp [hj])

lemma sel_first_cases (P : ℕ → Prop) :
    ∀ l : List ℕ, P (sel_first P l) ∨ sel_first P l = 1 := by
  intro l
  induction l with
  | nil => right; rfl
  | cons i rest ih =>
      by_cases h : P i
      · left; simp only [sel_first]; rwa [if_pos h]
      · simp only [sel_first]; rw [if_neg h]; exact ih

/-- **C1 (amended)** — for every scale and ordered range, the density
selection scans the catalog finest-to-coarsest and picks the first entry
whose key does not exceed the target granularity `step_num` *and* whose
minimum realized gap clears the minimum legible gap; when no entry
qualifies it falls back to the coarsest entry (key 1), so selection never
fails; and the selected key's realized gap is below the minimum legible
gap only when that coarsest fallback is returned. -/
theorem pat_auto_selection_amended (sc : SRScale) (xs xe scale_w minoff : ℝ)
    (horder : xs < xe) :
    (∀ pre a post, TF_MIN = pre ++ a :: post →
        (a ≤ step_num sc xs xe ∧ tick_gap sc xs xe scale_w a ≥ minoff) →
        (∀ b ∈ pre, ¬ (b ≤ step_num sc xs xe ∧ tick_gap sc xs xe scale_w b ≥ minoff)) →
        pat_auto_key sc xs xe scale_w minoff = a) ∧
      ((∀ i ∈ TF_MIN, ¬ (i ≤ step_num sc xs xe ∧ tick_gap sc xs xe scale_w i ≥ minoff)) →
        pat_auto_key sc xs xe scale_w minoff = 1 ∧
          pat_auto_sub_div4 sc xs xe scale_w minoff = (1, 1, 1)) ∧
      (tick_gap sc xs xe scale_w (pat_auto_key sc xs xe scale_w minoff) < minoff →
        pat_auto_key sc xs xe scale_w minoff = 1) := by
  refine ⟨?_, ?_, ?_⟩
  · intro pre a post heq hPa hpre
    unfold pat_auto_key
    rw [heq]
    exact sel_first_of_first _ a post pre hPa hpre
  · intro h
    have hk : pat_auto_key sc xs xe scale_w minoff = 1 := sel_first_default _ _ h
    refine ⟨hk, ?_⟩
    unfold pat_auto_sub_div4
    rw [hk]
    decide
  · intro hlt
    rcases sel_first_cases
        (fun i => i ≤ step_num sc xs xe ∧ tick_gap sc xs xe scale_w i ≥ minoff)
        TF_MIN with h | h
    · exact absurd h.2 (not_le.mpr hlt)
    · exact h

/-! ## Concrete evaluations of the selection on the Unit scale -/

lemma UnitScale_offset_between (x1 x2 w : ℝ) :
    UnitScale.offset_between x1 x2 w = |x2 - x1| * w := by
  simp [SRScale.offset_between, SRScale.frac_pos_of, UnitScale, ScaleFNs.Unit,
    ScaleFN.clamp_input]

lemma UnitScale_min_offset (xs xe d w : ℝ) (hd : 0 ≤ d) :
    UnitScale.min_offset_for_delta xs xe d w = d * w := by
  unfold SRScale.min_offset_for_delta
  rw [UnitScale_offset_between, UnitScale_offset_between]
  have h1 : xs + d - xs = d := by ring
  have h2 : xe - (xe - d) = d := by ring
  rw [h1, h2, abs_of_nonneg hd, min_self]

lemma logb_ten_zpow (n : ℤ) : Real.logb 10 ((10 : ℝ) ^ n) = n := by
  have h : Real.log 10 ≠ 0 := ne_of_gt (Real.log_pos (by norm_num))
  rw [show Real.logb 10 ((10 : ℝ) ^ n) = Real.log ((10 : ℝ) ^ n) / Real.log 10 from rfl,
    Real.log_zpow, mul_div_assoc, div_self h, mul_one]

lemma logb_six_pos : 0 < Real.logb 10 6 := Real.logb_pos (by norm_num) (by norm_num)

lemma logb_six_le_one : Real.logb 10 6 ≤ 1 := by
  rw [show Real.logb 10 6 = Real.log 6 / Real.log 10 from rfl,
    div_le_one (Real.log_pos (by norm_num))]
  exact Real.log_le_log (by norm_num) (by norm_num)

lemma c1_log_diff : log_diff (1/20 : ℝ) (3/50) = Real.logb 10 6 := by
  unfold log_diff
  rw [max_eq_right (by norm_num : (1/20 : ℝ) ≤ 3/50)]
  rw [show ((3/50 : ℝ) - 1/20) / (3/50) = (6 : ℝ)⁻¹ by norm_num]
  rw [abs_of_pos (by norm_num : (0 : ℝ) < (6 : ℝ)⁻¹), Real.logb_inv, abs_neg,
    abs_of_nonneg (le_of_lt logb_six_pos)]

lemma c1_num_digits : num_digits (1/20 : ℝ) (3/50) = 4 := by
  unfold num_digits
  rw [c1_log_diff]
  have hc : (⌈Real.logb 10 6⌉ : ℤ) = 1 := by
    rw [Int.ceil_eq_iff]
    constructor
    · push_cast
      linarith [logb_six_pos]
    · push_cast
      linarith [logb_six_le_one]
  rw [hc]
  decide

lemma c1_sf : pat_sf (1/20 : ℝ) (3/50) = 10000 := by
  unfold pat_sf
  rw [c1_num_digits]
  norm_num

lemma c1_frac_w : frac_w UnitScale (1/20) (3/50) = 1/100 := by
  unfold frac_w
  rw [UnitScale_offset_between]
  rw [show ((3/50 : ℝ) - 1/20) = 1/100 by norm_num,
    abs_of_pos (by norm_num : (0:ℝ) < 1/100)]
  ring

lemma c1_step_num : step_num UnitScale (1/20) (3/50) = 100 := by
  unfold step_num
  rw [c1_frac_w, c1_num_digits]
  have hlog : Real.logb 10 ((3/50 : ℝ) - 1/20) = -2 := by
    rw [show ((3/50 : ℝ) - 1/20) = (10:ℝ) ^ (-2 : ℤ) by norm_num, logb_ten_zpow]
    push_cast
    ring
  rw [hlog]
  have hpy : pyInt ((-2 : ℝ) - 0.5 * (1/100)) = -2 := by
    unfold pyInt
    rw [if_neg (by norm_num)]
    rw [show -((-2 : ℝ) - 0.5 * (1/100)) = 2.005 by norm_num]
    have hf : (⌊(2.005 : ℝ)⌋ : ℤ) = 2 := by
      rw [Int.floor_eq_iff] <;> norm_num
    rw [hf]
  rw [hpy]
  decide

lemma c1_tick_gap (i : ℕ) :
    tick_gap UnitScale (1/20) (3/50) (10^7) i = 100000 / i := by
  unfold tick_gap
  rw [c1_step_num, c1_sf, UnitScale_min_offset _ _ _ _ (by positivity)]
  push_cast
  rcases eq_or_ne (i : ℝ) 0 with h | h
  · rw [h]
    simp
  · field_simp
    ring

lemma c1_code_key : pat_auto_key UnitScale (1/20) (3/50) (10^7) 30 = 100 := by
  have h500 : ¬ (500 ≤ step_num UnitScale (1/20) (3/50) ∧
      tick_gap UnitScale (1/20) (3/50) (10^7) 500 ≥ 30) := by
    rw [c1_step_num]
    rintro ⟨h, -⟩
    norm_num at h
  have h250 : ¬ (250 ≤ step_num UnitScale (1/20) (3/50) ∧
      tick_gap UnitScale (1/20) (3/50) (10^7) 250 ≥ 30) := by
    rw [c1_step_num]
    rintro ⟨h, -⟩
    norm_num at h
  have h100 : (100 ≤ step_num UnitScale (1/20) (3/50) ∧
      tick_gap UnitScale (1/20) (3/50) (10^7) 100 ≥ 30) := by
    rw [c1_step_num, c1_tick_gap]
    norm_num
  unfold pat_auto_key TF_MIN
  simp only [sel_first]
  rw [if_neg h500, if_neg h250, if_pos h100]

lemma c1_claimed_key : claimed_key UnitScale (1/20) (3/50) (10^7) 30 = 500 := by
  have hg500 : tick_gap UnitScale (1/20) (3/50) (10^7) 500 ≥ 30 := by
    rw [c1_tick_gap]
    norm_num
  unfold claimed_key TF_MIN
  simp only [sel_first]
  rw [if_pos hg500]

/-- **C1 counterexample** — on the pixel-linear Unit scale over
[0.05, 0.06] with scale width 10⁷ px and minimum legible gap 30 px, the
target granularity is `step_num = 100`, so the code's `i <= step_num`
filter skips the finest keys 500 and 250 even though their realized gaps
(200 px, 400 px) clear the minimum: the code selects key 100, while the
claim's pick-the-first-entry-whose-gap-clears rule selects 500. -/
theorem pat_auto_selection_claim_fails :
    pat_auto_key UnitScale (1/20) (3/50) (10^7) 30 = 100 ∧
      claimed_key UnitScale (1/20) (3/50) (10^7) 30 = 500 ∧ (100 : ℕ) ≠ 500 :=
  ⟨c1_code_key, c1_claimed_key, by decide⟩

lemma w0_log_diff : log_diff (0 : ℝ) 1 = 0 := by
  unfold log_diff
  rw [max_eq_right (by norm_num : (0:ℝ) ≤ 1)]
  rw [show ((1 : ℝ) - 0) / 1 = 1 by norm_num]
  simp [Real.logb_one]

lemma w0_num_digits : num_digits (0 : ℝ) 1 = 3 := by
  unfold num_digits
  rw [w0_log_diff]
  simp

lemma w0_sf : pat_sf (0 : ℝ) 1 = 1000 := by
  unfold pat_sf
  rw [w0_num_digits]
  norm_num

lemma w0_frac_w : frac_w UnitScale 0 1 = 1 := by
  unfold frac_w
  rw [UnitScale_offset_between]
  norm_num

lemma w0_step_num : step_num UnitScale 0 1 = 1000 := by
  unfold step_num
  rw [w0_frac_w, w0_num_digits]
  rw [show ((1:ℝ) - 0) = 1 by norm_num, Real.logb_one]
  have hpy : pyInt ((0 : ℝ) - 0.5 * 1) = 0 := by
    unfold pyInt
    rw [if_neg (by norm_num)]
    rw [show -((0 : ℝ) - 0.5 * 1) = 0.5 by norm_num]
    have hf : (⌊(0.5 : ℝ)⌋ : ℤ) = 0 := by
      rw [Int.floor_eq_iff] <;> norm_num
    rw [hf]
    ring
  rw [hpy]
  decide

lemma unit01_tick_gap (w : ℝ) (i : ℕ) :
    tick_gap UnitScale 0 1 w i = w / i := by
  unfold tick_gap
  rw [w0_step_num, w0_sf, UnitScale_min_offset _ _ _ _ (by positivity)]
  push_cast
  rcases eq_or_ne (i : ℝ) 0 with h | h
  · rw [h]
    simp
  · field_simp
    ring

/-- Witness for C1 (amended): on the Unit scale over [0, 1] at width 10⁶
and minimum gap 30, key 500 passes both filters (500 ≤ step_num = 1000,
gap 2000 ≥ 30) and is picked first. -/
theorem pat_auto_selection_amended_witness :
    (0 : ℝ) < 1 ∧ pat_auto_key UnitScale 0 1 (10^6) 30 = 500 := by
  refine ⟨by norm_num, ?_⟩
  refine (pat_auto_selection_amended UnitScale 0 1 (10^6) 30 (by norm_num)).1
    [] 500 [250, 100, 50, 25, 20, 10, 5, 2, 1] rfl ⟨?_, ?_⟩ (by simp)
  · rw [w0_step_num]
    norm_num
  · rw [unit01_tick_gap]
    norm_num

/-! ## Third-level numeral grant (`sub_num` and the `font3` condition) -/

/-- `numeral_tick_offset = sc.min_offset_for_delta(x_start, x_end,
step_num / sf, scale_w)`. -/
noncomputable def numeral_tick_offset (sc : SRScale) (xs xe scale_w : ℝ) : ℝ :=
  sc.min_offset_for_delta xs xe ((step_num sc xs xe : ℝ) / pat_sf xs xe) scale_w

/-- `max_num_chars = numeral_tick_offset // sym_width('_', num_font)`:
float floor division.  `glyph_w` is the measured glyph width — font
metric lookup is an external capability the engine consumes. -/
noncomputable def max_num_chars (sc : SRScale) (xs xe scale_w glyph_w : ℝ) : ℤ :=
  ⌊numeral_tick_offset sc xs xe scale_w / glyph_w⌋

/-- `sub_num = (step4 < step3 < step_num) and max_num_chars > 8`. -/
def sub_num (sc : SRScale) (xs xe scale_w min_tick_offset glyph_w : ℝ) : Prop :=
  ((pat_auto_steps sc xs xe scale_w min_tick_offset).2.2.2 <
      (pat_auto_steps sc xs xe scale_w min_tick_offset).2.2.1 ∧
    (pat_auto_steps sc xs xe scale_w min_tick_offset).2.2.1 < (step_num sc xs xe : ℤ)) ∧
  max_num_chars sc xs xe scale_w glyph_w > 8

/-- The third tick level receives its own numeral font (`font3` is not
`None`) iff `sub_num and step3 == step_num // 10`. -/
def third_level_numeraled (sc : SRScale) (xs xe scale_w min_tick_offset glyph_w : ℝ) :
    Prop :=
  sub_num sc xs xe scale_w min_tick_offset glyph_w ∧
    (pat_auto_steps sc xs xe scale_w min_tick_offset).2.2.1 =
      Int.fdiv (step_num sc xs xe : ℤ) 10

lemma c8_steps : pat_auto_steps UnitScale (1/20) (3/50) (10^7) 30 = (100, 10, 5, 1) := by
  unfold pat_auto_steps pat_auto_sub_div4
  rw [c1_code_key, c1_step_num]
  decide

lemma c8_ntick : numeral_tick_offset UnitScale (1/20) (3/50) (10^7) = 100000 := by
  unfold numeral_tick_offset
  rw [c1_step_num, c1_sf, UnitScale_min_offset _ _ _ _ (by positivity)]
  push_cast
  norm_num

lemma c8_chars : max_num_chars UnitScale (1/20) (3/50) (10^7) 100 = 1000 := by
  unfold max_num_chars
  rw [c8_ntick, show (100000 : ℝ) / 100 = 1000 by norm_num]
  rw [Int.floor_eq_iff] <;> norm_num

lemma c8b_key : pat_auto_key UnitScale 0 1 1500 30 = 50 := by
  have h500 : ¬ (500 ≤ step_num UnitScale 0 1 ∧
      tick_gap UnitScale 0 1 1500 500 ≥ 30) := by
    rw [unit01_tick_gap]
    rintro ⟨-, h⟩
    norm_num at h
  have h250 : ¬ (250 ≤ step_num UnitScale 0 1 ∧
      tick_gap UnitScale 0 1 1500 250 ≥ 30) := by
    rw [unit01_tick_gap]
    rintro ⟨-, h⟩
    norm_num at h
  have h100 : ¬ (100 ≤ step_num UnitScale 0 1 ∧
      tick_gap UnitScale 0 1 1500 100 ≥ 30) := by
    rw [unit01_tick_gap]
    rintro ⟨-, h⟩
    norm_num at h
  have h50 : (50 ≤ step_num UnitScale 0 1 ∧
      tick_gap UnitScale 0 1 1500 50 ≥ 30) := by
    rw [w0_step_num, unit01_tick_gap]
    norm_num
  unfold pat_auto_key TF_MIN
  simp only [sel_first]
  rw [if_neg h500, if_neg h250, if_neg h100, if_pos h50]

lemma c8b_steps : pat_auto_steps UnitScale 0 1 1500 30 = (1000, 500, 100, 20) := by
  unfold pat_auto_steps pat_auto_sub_div4
  rw [c8b_key, w0_step_num]
  decide

lemma c8b_ntick : numeral_tick_offset UnitScale 0 1 1500 = 1500 := by
  unfold numeral_tick_offset
  rw [w0_step_num, w0_sf, UnitScale_min_offset _ _ _ _ (by positivity)]
  push_cast
  norm_num

lemma c8b_chars : max_num_chars UnitScale 0 1 1500 180 = 8 := by
  unfold max_num_chars
  rw [c8b_ntick, show (1500 : ℝ) / 180 = 25/3 by norm_num]
  rw [Int.floor_eq_iff] <;> norm_num

/-- **C8 counterexample** — two realizable inputs where the claim's
"granted exactly when the finest step is strictly below the third-level
step and at least 8 characters fit" fails: (a) Unit scale over
[0.05, 0.06], width 10⁷, gap 30, glyph width 100: steps 100/10/5/1 give
step4 < step3 and 1000 characters fit, yet no third-level font is
granted because step3 = 5 ≠ step_num // 10 = 10; (b) Unit scale over
[0, 1], width 1500, gap 30, glyph width 180: steps 1000/500/100/20 with
step3 = step_num // 10 and exactly 8 characters fit (so "at least 8"
holds), yet the code requires strictly more than 8. -/
theorem third_level_numerals_claim_fails :
    (¬ third_level_numeraled UnitScale (1/20) (3/50) (10^7) 30 100 ∧
      (pat_auto_steps UnitScale (1/20) (3/50) (10^7) 30).2.2.2 <
        (pat_auto_steps UnitScale (1/20) (3/50) (10^7) 30).2.2.1 ∧
      max_num_chars UnitScale (1/20) (3/50) (10^7) 100 ≥ 8) ∧
    (¬ third_level_numeraled UnitScale 0 1 1500 30 180 ∧
      (pat_auto_steps UnitScale 0 1 1500 30).2.2.2 <
        (pat_auto_steps UnitScale 0 1 1500 30).2.2.1 ∧
      max_num_chars UnitScale 0 1 1500 180 ≥ 8) := by
  constructor
  · refine ⟨?_, by rw [c8_steps]; decide, by rw [c8_chars]; decide⟩
    rintro ⟨-, h10⟩
    rw [c8_steps, c1_step_num] at h10
    exact absurd h10 (by decide)
  · refine ⟨?_, by rw [c8b_steps]; decide, by rw [c8b_chars]⟩
    rintro ⟨⟨-, hch⟩, -⟩
    rw [c8b_chars] at hch
    exact absurd hch (by decide)

/-- **C8 (amended)** — the third tick level is granted its own numerals
exactly when the finest step is strictly below the third-level step,
strictly more than 8 characters fit in the numeral gap (the floor of gap
width over glyph width exceeds 8), and the third-level step equals one
tenth (floor) of the top-level step. -/
theorem third_level_numerals_iff (sc : SRScale) (xs xe scale_w min_tick_offset glyph_w : ℝ) :
    third_level_numeraled sc xs xe scale_w min_tick_offset glyph_w ↔
      ((pat_auto_steps sc xs xe scale_w min_tick_offset).2.2.2 <
          (pat_auto_steps sc xs xe scale_w min_tick_offset).2.2.1 ∧
        max_num_chars sc xs xe scale_w glyph_w > 8 ∧
        (pat_auto_steps sc xs xe scale_w min_tick_offset).2.2.1 =
          Int.fdiv (step_num sc xs xe : ℤ) 10) := by
  have hpos : 0 < step_num sc xs xe := pow_pos (by norm_num) _
  constructor
  · rintro ⟨⟨⟨h43, -⟩, hch⟩, h10⟩
    exact ⟨h43, hch, h10⟩
  · rintro ⟨h43, hch, h10⟩
    refine ⟨⟨⟨h43, ?_⟩, hch⟩, h10⟩
    rw [h10, Int.fdiv_eq_ediv _ (by norm_num)]
    have hnat : ((step_num sc xs xe / 10 : ℕ) : ℤ) =
        (step_num sc xs xe : ℤ) / 10 := by
      push_cast [Int.ofNat_div]
      norm_num
    rw [← hnat]
    exact_mod_cast Nat.div_lt_self hpos (by norm_num)

/-! ## Scenario A: range [1, 10] on the decade-log scale, 8000 px, 30 px -/

lemma one_sub_inv_le_log {x : ℝ} (hx : 0 < x) : 1 - x⁻¹ ≤ Real.log x := by
  have h := Real.log_le_sub_one_of_pos (inv_pos.mpr hx)
  rw [Real.log_inv] at h
  linarith

lemma log_1024_eq_pow2 : Real.log 1024 = 10 * Real.log 2 := by
  rw [show (1024 : ℝ) = 2 ^ (10:ℕ) by norm_num, Real.log_pow]
  norm_num

lemma log_1024_eq_ten : Real.log 1024 = 3 * Real.log 10 + Real.log 1.024 := by
  rw [show (1024 : ℝ) = 10 ^ (3:ℕ) * 1.024 by norm_num,
    Real.log_mul (by positivity) (by norm_num), Real.log_pow]
  norm_num

lemma log_small_le : Real.log 1.024 ≤ 0.024 := by
  have h := Real.log_le_sub_one_of_pos (by norm_num : (0:ℝ) < 1.024)
  linarith

lemma log_small_ge : (0.0234375 : ℝ) ≤ Real.log 1.024 := by
  have h := one_sub_inv_le_log (by norm_num : (0:ℝ) < 1.024)
  have hc : (1 : ℝ) - (1.024)⁻¹ = 0.0234375 := by norm_num
  linarith

/-- `2.30249 < ln 10`, from the nine-digit bounds on `ln 2`. -/
lemma log_ten_gt : (2.30249 : ℝ) < Real.log 10 := by
  have h2 := Real.log_two_gt_d9
  have he := log_1024_eq_pow2
  have ht := log_1024_eq_ten
  have hs := log_small_le
  linarith

/-- `ln 10 < 2.30268`. -/
lemma log_ten_lt : Real.log 10 < 2.30268 := by
  have h2 := Real.log_two_lt_d9
  have he := log_1024_eq_pow2
  have ht := log_1024_eq_ten
  have hs := log_small_ge
  linarith

lemma log_ten_pos : (0 : ℝ) < Real.log 10 := Real.log_pos (by norm_num)

lemma Base_clamp {x : ℝ} (hx : eps ≤ x) : ScaleFNs.Base.clamp_input x = x := by
  show max x eps = x
  exact max_eq_left hx

lemma BaseScale_offset_between {x1 x2 : ℝ} (h1 : eps ≤ x1) (h2 : eps ≤ x2) (w : ℝ) :
    BaseScale.offset_between x1 x2 w = |Real.logb 10 x2 - Real.logb 10 x1| * w := by
  unfold SRScale.offset_between SRScale.frac_pos_of
  show |0 + 0 + ScaleFNs.Base.fn (ScaleFNs.Base.clamp_input x2) -
      (0 + 0 + ScaleFNs.Base.fn (ScaleFNs.Base.clamp_input x1))| * w = _
  rw [Base_clamp h1, Base_clamp h2]
  show |0 + 0 + gen_base x2 - (0 + 0 + gen_base x1)| * w = _
  unfold gen_base
  ring_nf

lemma eps_le_one : eps ≤ (1 : ℝ) := by
  unfold eps
  norm_num

lemma logb_nine_lt_one : Real.logb 10 9 < 1 := by
  rw [show Real.logb 10 9 = Real.log 9 / Real.log 10 from rfl,
    div_lt_one log_ten_pos]
  exact Real.log_lt_log (by norm_num) (by norm_num)

lemma logb_nine_ge_half : (1/2 : ℝ) ≤ Real.logb 10 9 := by
  rw [show Real.logb 10 9 = Real.log 9 / Real.log 10 from rfl,
    le_div_iff log_ten_pos]
  have h81 : Real.log 10 ≤ Real.log 81 :=
    Real.log_le_log (by norm_num) (by norm_num)
  have h9 : Real.log 81 = 2 * Real.log 9 := by
    rw [show (81 : ℝ) = 9 ^ (2:ℕ) by norm_num, Real.log_pow]
    norm_num
  linarith

lemma c9_log_diff : log_diff (1 : ℝ) 10 = 1 - Real.logb 10 9 := by
  unfold log_diff
  rw [max_eq_right (by norm_num : (1:ℝ) ≤ 10)]
  rw [show ((10 : ℝ) - 1) / 10 = 9/10 by norm_num,
    abs_of_pos (by norm_num : (0:ℝ) < 9/10)]
  rw [show (9/10 : ℝ) = 9 / 10 from rfl, Real.logb_div (by norm_num) (by norm_num),
    Real.logb_self_eq_one (by norm_num)]
  rw [abs_of_neg (by linarith [logb_nine_lt_one])]
  ring

lemma c9_num_digits : num_digits (1 : ℝ) 10 = 4 := by
  unfold num_digits
  rw [c9_log_diff]
  have hc : (⌈(1 : ℝ) - Real.logb 10 9⌉ : ℤ) = 1 := by
    rw [Int.ceil_eq_iff]
    constructor
    · push_cast
      linarith [logb_nine_lt_one]
    · push_cast
      linarith [logb_nine_ge_half]
  rw [hc]
  decide

lemma c9_sf : pat_sf (1 : ℝ) 10 = 10000 := by
  unfold pat_sf
  rw [c9_num_digits]
  norm_num

lemma c9_frac_w : frac_w BaseScale 1 10 = 1 := by
  unfold frac_w
  rw [BaseScale_offset_between eps_le_one (by unfold eps; norm_num)]
  rw [Real.logb_self_eq_one (by norm_num), Real.logb_one]
  norm_num

lemma c9_step_num : step_num BaseScale 1 10 = 10000 := by
  unfold step_num
  rw [c9_frac_w, c9_num_digits]
  rw [show ((10 : ℝ) - 1) = 9 by norm_num]
  have hpy : pyInt (Real.logb 10 9 - 0.5 * 1) = 0 := by
    unfold pyInt
    rw [if_pos (by nlinarith [logb_nine_ge_half])]
    have hf : (⌊Real.logb 10 9 - 0.5 * 1⌋ : ℤ) = 0 := by
      rw [Int.floor_eq_iff]
      constructor
      · push_cast
        nlinarith [logb_nine_ge_half]
      · push_cast
        nlinarith [logb_nine_lt_one]
    rw [hf]
  rw [hpy]
  decide

lemma c9_delta (i : ℕ) :
    (step_num BaseScale 1 10 : ℝ) / (i : ℝ) / pat_sf 1 10 = 1 / (i : ℝ) := by
  rw [c9_step_num, c9_sf]
  push_cast
  rcases eq_or_ne (i : ℝ) 0 with h | h
  · rw [h]
    simp
  · field_simp
    ring

/-- Every key from 12 up is rejected at [1, 10] × 8000 px: the gap at the
compressed high end, `8000·(1 − log₁₀(10 − 1/i))`, stays below 30 px. -/
lemma c9_reject {i : ℕ} (hi : 12 ≤ i) : tick_gap BaseScale 1 10 8000 i < 30 := by
  have hi' : (12 : ℝ) ≤ (i : ℝ) := by exact_mod_cast hi
  have hipos : (0 : ℝ) < i := by linarith
  have hd_pos : (0 : ℝ) < 1 / (i : ℝ) := by positivity
  have hd_le : 1 / (i : ℝ) ≤ 1 / 12 := by
    rw [div_le_div_iff hipos (by norm_num)]
    linarith
  unfold tick_gap SRScale.min_offset_for_delta
  rw [c9_delta]
  refine lt_of_le_of_lt (min_le_right _ _) ?_
  have h10d : (119 / 12 : ℝ) ≤ 10 - 1 / (i : ℝ) := by linarith
  have h10dpos : (0 : ℝ) < 10 - 1 / (i : ℝ) := by linarith
  rw [BaseScale_offset_between
    (le_trans (by unfold eps; norm_num : eps ≤ (119/12 : ℝ)) h10d)
    (by unfold eps; norm_num)]
  rw [Real.logb_self_eq_one (by norm_num)]
  have hlogb_le : Real.logb 10 (10 - 1 / (i : ℝ)) ≤ 1 := by
    rw [show Real.logb 10 (10 - 1 / (i : ℝ)) =
        Real.log (10 - 1 / (i : ℝ)) / Real.log 10 from rfl, div_le_one log_ten_pos]
    exact Real.log_le_log h10dpos (by linarith)
  rw [abs_of_nonneg (by linarith)]
  have hkey : Real.log 10 - Real.log (10 - 1 / (i : ℝ)) ≤ 1 / 119 := by
    rw [← Real.log_div (by norm_num) (ne_of_gt h10dpos)]
    have hb := Real.log_le_sub_one_of_pos
      (show (0 : ℝ) < 10 / (10 - 1 / (i : ℝ)) by positivity)
    have heq : 10 / (10 - 1 / (i : ℝ)) - 1 = (1 / (i : ℝ)) / (10 - 1 / (i : ℝ)) := by
      rw [div_sub_one (ne_of_gt h10dpos)]
      congr 1
      ring
    have hfrac : (1 / (i : ℝ)) / (10 - 1 / (i : ℝ)) ≤ (1 / 12) / (119 / 12) :=
      div_le_div₀ (by norm_num) hd_le (by norm_num) h10d
    have hval : ((1 : ℝ) / 12) / (119 / 12) = 1 / 119 := by norm_num
    linarith
  have hlogb_eq : 1 - Real.logb 10 (10 - 1 / (i : ℝ)) =
      (Real.log 10 - Real.log (10 - 1 / (i : ℝ))) / Real.log 10 := by
    rw [show Real.logb 10 (10 - 1 / (i : ℝ)) =
        Real.log (10 - 1 / (i : ℝ)) / Real.log 10 from rfl]
    field_simp
  rw [hlogb_eq, div_mul_eq_mul_div, div_lt_iff log_ten_pos]
  linarith [log_ten_gt, hkey]

/-- Key 10 is accepted at [1, 10] × 8000 px: both end gaps clear 30 px. -/
lemma c9_accept : tick_gap BaseScale 1 10 8000 10 ≥ 30 := by
  unfold tick_gap SRScale.min_offset_for_delta
  rw [c9_delta]
  rw [show (1 : ℝ) / ((10 : ℕ) : ℝ) = 1 / 10 by norm_num]
  rw [show (1 : ℝ) + 1 / 10 = 11 / 10 by norm_num,
    show (10 : ℝ) - 1 / 10 = 99 / 10 by norm_num]
  refine le_min ?_ ?_
  · rw [BaseScale_offset_between eps_le_one (by unfold eps; norm_num)]
    rw [Real.logb_one, sub_zero,
      abs_of_nonneg (Real.logb_nonneg (by norm_num) (by norm_num))]
    rw [show Real.logb 10 (11 / 10) = Real.log (11 / 10) / Real.log 10 from rfl,
      div_mul_eq_mul_div, le_div_iff log_ten_pos]
    have hl : (1 / 11 : ℝ) ≤ Real.log (11 / 10) := by
      have h := one_sub_inv_le_log (show (0 : ℝ) < 11 / 10 by norm_num)
      have hc : (1 : ℝ) - (11 / 10)⁻¹ = 1 / 11 := by norm_num
      linarith
    linarith [log_ten_lt]
  · rw [BaseScale_offset_between (by unfold eps; norm_num) (by unfold eps; norm_num)]
    rw [Real.logb_self_eq_one (by norm_num)]
    have hle : Real.logb 10 (99 / 10) ≤ 1 := by
      rw [show Real.logb 10 (99 / 10) = Real.log (99 / 10) / Real.log 10 from rfl,
        div_le_one log_ten_pos]
      exact Real.log_le_log (by norm_num) (by norm_num)
    rw [abs_of_nonneg (by linarith)]
    have hkey : (1 / 100 : ℝ) ≤ Real.log 10 - Real.log (99 / 10) := by
      rw [← Real.log_div (by norm_num) (by norm_num),
        show (10 : ℝ) / (99 / 10) = 100 / 99 by norm_num]
      have h := one_sub_inv_le_log (show (0 : ℝ) < 100 / 99 by norm_num)
      have hc : (1 : ℝ) - (100 / 99)⁻¹ = 1 / 100 := by norm_num
      linarith
    have hlogb_eq : 1 - Real.logb 10 (99 / 10) =
        (Real.log 10 - Real.log (99 / 10)) / Real.log 10 := by
      rw [show Real.logb 10 (99 / 10) = Real.log (99 / 10) / Real.log 10 from rfl]
      field_simp
    rw [hlogb_eq, div_mul_eq_mul_div, le_div_iff log_ten_pos]
    linarith [log_ten_lt, hkey]

lemma c9_code_key : pat_auto_key BaseScale 1 10 8000 30 = 10 := by
  have hn : ∀ i : ℕ, 12 ≤ i → ¬ (i ≤ step_num BaseScale 1 10 ∧
      tick_gap BaseScale 1 10 8000 i ≥ 30) :=
    fun i hi h => absurd h.2 (not_le.mpr (c9_reject hi))
  have h10 : (10 ≤ step_num BaseScale 1 10 ∧
      tick_gap BaseScale 1 10 8000 10 ≥ 30) := by
    refine ⟨?_, c9_accept⟩
    rw [c9_step_num]
    norm_num
  unfold pat_auto_key TF_MIN
  simp only [sel_first]
  rw [if_neg (hn 500 (by norm_num)), if_neg (hn 250 (by norm_num)),
    if_neg (hn 100 (by norm_num)), if_neg (hn 50 (by norm_num)),
    if_neg (hn 25 (by norm_num)), if_neg (hn 20 (by norm_num)), if_pos h10]

lemma c9_steps : pat_auto_steps BaseScale 1 10 8000 30 = (10000, 5000, 1000, 1000) := by
  unfold pat_auto_steps pat_auto_sub_div4
  rw [c9_code_key, c9_step_num]
  decide

/-- **C9 counterexample** — at [1, 10] on the decade-log transform with
8000 px width and 30 px minimum gap, the engine selects the subdivision
keyed 10 with factors (2, 5, 1), not the subdivision keyed 50 with
factors (2, 5, 5) the claim names: already at key 50 the high-end gap
8000·(1 − log₁₀ 9.98) ≈ 7 px is below 30 px. -/
theorem scenario_a_claim_fails :
    pat_auto_key BaseScale 1 10 8000 30 = 10 ∧ (10 : ℕ) ≠ 50 ∧
      pat_auto_sub_div4 BaseScale 1 10 8000 30 = (2, 5, 1) ∧
      ((2, 5, 1) : TickFactors) ≠ (2, 5, 5) := by
  refine ⟨c9_code_key, by decide, ?_, by decide⟩
  unfold pat_auto_sub_div4
  rw [c9_code_key]
  decide

/-! ### The emitted graduation's labeled ticks -/

/-- Length of Python `range(start, stop, step)` for positive step:
`max(0, ceil((stop - start) / step))`. -/
def pyRangeLen (start stop step : ℤ) : ℕ :=
  if 0 < step then (Int.fdiv (stop - start + step - 1) step).toNat else 0

/-- Python `range(start, stop, step)` as a list. -/
def pyRange (start stop step : ℤ) : List ℤ :=
  (List.range (pyRangeLen start stop step)).map (fun k => start + step * k)

/-- The indices of `pat`'s loop that get first-level treatment
(`i % step1 == 0`); `pat_auto` always passes a non-None `font1`, so these
are exactly the numeral-labeled ticks. -/
def pat_level1_indices (i_start i_end step1 step4 : ℤ) : List ℤ :=
  (pyRange i_start i_end step4).filter (fun i => Int.emod i step1 == 0)

/-- `pat_auto`'s iteration start: `int(x_start * sf)`, aligned up to the
next multiple of the finest step when not already on one. -/
noncomputable def pat_auto_i_start (sc : SRScale) (xs xe scale_w minoff : ℝ) : ℤ :=
  if 0 < Int.emod (pyInt (xs * pat_sf xs xe))
      (pat_auto_steps sc xs xe scale_w minoff).2.2.2 then
    pyInt (xs * pat_sf xs xe) -
      Int.emod (pyInt (xs * pat_sf xs xe))
        (pat_auto_steps sc xs xe scale_w minoff).2.2.2 +
      (pat_auto_steps sc xs xe scale_w minoff).2.2.2
  else pyInt (xs * pat_sf xs xe)

/-- `pat_auto`'s iteration end: `int(x_end * sf + (1 if include_last else 0))`. -/
noncomputable def pat_auto_i_end (sc : SRScale) (xs xe : ℝ) (include_last : Bool) : ℤ :=
  pyInt (xe * pat_sf xs xe + (if include_last then 1 else 0))

lemma c9_pyint_start : pyInt ((1 : ℝ) * pat_sf 1 10) = 10000 := by
  rw [show (1 : ℝ) * pat_sf 1 10 = pat_sf 1 10 by ring, c9_sf]
  unfold pyInt
  rw [if_pos (by norm_num)]
  rw [Int.floor_eq_iff]
  norm_num

lemma c9_i_start : pat_auto_i_start BaseScale 1 10 8000 30 = 10000 := by
  unfold pat_auto_i_start
  rw [c9_steps, c9_pyint_start]
  decide

lemma c9_i_end : pat_auto_i_end BaseScale 1 10 false = 100000 := by
  unfold pat_auto_i_end
  have harg : (10 : ℝ) * pat_sf 1 10 + (if (false : Bool) then (1:ℝ) else 0) = 100000 := by
    rw [c9_sf]
    norm_num
  rw [harg]
  unfold pyInt
  rw [if_pos (by norm_num)]
  rw [Int.floor_eq_iff]
  norm_num

lemma c9_level1 : pat_level1_indices 10000 100000 10000 1000 =
    [10000, 20000, 30000, 40000, 50000, 60000, 70000, 80000, 90000] := by decide

/-- **C9 (amended)** — for the range [1, 10] on the decade-log transform,
8000 px width, 30 px minimum gap: the engine selects the subdivision
keyed 10 (steps 10000/5000/1000/1000 at scale factor 10⁴, i.e. relative
steps 100/50/10/10), and the emitted graduation carries first-level
labeled ticks exactly at the integers 1 through 9 — the value 10 is the
exclusive end of the index range (`include_last` defaults to false). -/
theorem scenario_a_amended :
    pat_auto_key BaseScale 1 10 8000 30 = 10 ∧
      pat_auto_steps BaseScale 1 10 8000 30 = (10000, 5000, 1000, 1000) ∧
      pat_level1_indices (pat_auto_i_start BaseScale 1 10 8000 30)
          (pat_auto_i_end BaseScale 1 10 false) 10000 1000 =
        [10000, 20000, 30000, 40000, 50000, 60000, 70000, 80000, 90000] ∧
      ([10000, 20000, 30000, 40000, 50000, 60000, 70000, 80000, 90000] : List ℤ).map
          (fun i => (i : ℝ) / pat_sf 1 10) = [1, 2, 3, 4, 5, 6, 7, 8, 9] := by
  refine ⟨c9_code_key, c9_steps, ?_, ?_⟩
  · rw [c9_i_start, c9_i_end]
    exact c9_level1
  · rw [c9_sf]
    norm_num [List.map_cons, List.map_nil]

end SlideRule
